import Mathlib

/-!
# Stack memory allocator

A shallow embedding of `Zor::MemoryAllocators::StackMemoryAllocator`
(`StackMemoryAllocator.h`, `StackMemoryAllocator.cpp`) and theorems about it.

Platform model: a flat 64-bit address space. A pointer and a `size_t` are natural
numbers below `2 ^ 64`; pointer and `size_t` arithmetic wraps modulo `2 ^ 64`; the null pointer
is the address 0.
`AllocationInfo` holds one `size_t`, so `sizeof (AllocationInfo) = alignof (AllocationInfo) = 8`.
Memory is byte addressed; a `size_t` is stored as eight bytes, least significant first.
-/

namespace Zor.MemoryAllocators

/-! ## Machine arithmetic -/

/-- Addition of `size_t` values and of a pointer and an offset: wraps modulo `2 ^ 64`. -/
def wadd (a b : Nat) : Nat := (a + b) % 2 ^ 64

/-- Subtraction of `size_t` values and of pointers: wraps modulo `2 ^ 64`. -/
def wsub (a b : Nat) : Nat := (a + (2 ^ 64 - b % 2 ^ 64)) % 2 ^ 64

/-- Unary minus on `size_t`. -/
def wneg (a : Nat) : Nat := wsub 0 a

/-- The least multiple of `a` that is at least `x`, in unbounded arithmetic (for `0 < a`):
`x` plus the padding that aligns it. -/
def alignUp (x a : Nat) : Nat := x + (a - x % a) % a

/-- The address `p` is the least multiple of `a` that is at least `x`. -/
def IsLeastAligned (a x p : Nat) : Prop :=
  a ∣ p ∧ x ≤ p ∧ ∀ m, a ∣ m → x ≤ m → p ≤ m

/-! ## Memory -/

/-- Byte-addressed memory: the byte stored at every address. -/
abbrev Memory := Nat → Nat

/-- Store of one byte. -/
def storeByte (m : Memory) (a b : Nat) : Memory := fun x => if x = a then b else m x

/-- Store of the `n` low bytes of `v` at the addresses `a`, `a + 1`, ..., least significant first. -/
def storeBytes (m : Memory) (a v : Nat) : Nat → Memory
  | 0 => m
  | n + 1 => storeByte (storeBytes m a v n) (wadd a n) (v / 256 ^ n % 256)

/-- Load of the `n` bytes at the addresses `a`, `a + 1`, ..., least significant first. -/
def loadBytes (m : Memory) (a : Nat) : Nat → Nat
  | 0 => 0
  | n + 1 => loadBytes m a n + m (wadd a n) * 256 ^ n

/-! ## The allocator -/

/-- The value of `sizeof (AllocationInfo)`: one `size_t`. -/
def allocationInfoSize : Nat := 8

/-- The value of `alignof (AllocationInfo)`: that of `size_t`. -/
def allocationInfoAlignment : Nat := 8

/-- Assignment to `info->allocationSize` for the `AllocationInfo` at address `infoPlace`. -/
def writeAllocationSize (m : Memory) (infoPlace v : Nat) : Memory :=
  storeBytes m infoPlace v allocationInfoSize

/-- Read of `info->allocationSize` for the `AllocationInfo` at address `infoPlace`. -/
def readAllocationSize (m : Memory) (infoPlace : Nat) : Nat :=
  loadBytes m infoPlace allocationInfoSize

/-- The data members of `StackMemoryAllocator`, with the memory its pointers refer to. -/
structure StackMemoryAllocator where
  /-- Member `bufferSize`. -/
  bufferSize : Nat
  /-- Member `m_buffer`: the address of the first byte of the buffer. -/
  m_buffer : Nat
  /-- Member `m_nextPlace`: the address of the next free byte. -/
  m_nextPlace : Nat
  /-- The bytes of the address space. -/
  memory : Memory

end Zor.MemoryAllocators

namespace std

open Zor.MemoryAllocators

/-- The function `std::align` of `<memory>`, as libstdc++ implements it. The first component is
the returned pointer, 0 for a null pointer; the second and third are the values of `ptr` and
`space` afterwards.
```
if (space < size) return nullptr;
const auto intptr = reinterpret_cast<uintptr_t>(ptr);
const auto aligned = (intptr - 1u + align) & -align;
const auto diff = aligned - intptr;
if (diff > (space - size)) return nullptr;
else { space -= diff; return ptr = reinterpret_cast<void*>(aligned); }
```
-/
def align (alignment size ptr space : Nat) : Nat × Nat × Nat :=
  if space < size then (0, ptr, space)
  else
    let aligned := wadd (wsub ptr 1) alignment &&& wneg alignment
    let diff := wsub aligned ptr
    if diff > wsub space size then (0, ptr, space)
    else (aligned, aligned, wsub space diff)

end std

namespace Zor.MemoryAllocators

namespace StackMemoryAllocator

/-- The constructor `StackMemoryAllocator(size_t bufferSize)`. The pointer that `malloc` returns
is the argument `mallocResult`; the result is `none` when `std::bad_alloc` is thrown. -/
def ctor (bufferSize mallocResult : Nat) (memory : Memory) : Option StackMemoryAllocator :=
  if mallocResult = 0 then none
  else some { bufferSize := bufferSize, m_buffer := mallocResult, m_nextPlace := mallocResult,
              memory := memory }

/-- The protected constructor `StackMemoryAllocator(size_t bufferSize, char* buffer)`. -/
def ctorBuffer (bufferSize buffer : Nat) (memory : Memory) : StackMemoryAllocator :=
  { bufferSize := bufferSize, m_buffer := buffer, m_nextPlace := buffer, memory := memory }

/-- The member function `GetRemainingSize`. -/
def GetRemainingSize (s : StackMemoryAllocator) : Nat :=
  wsub (wadd s.m_buffer s.bufferSize) s.m_nextPlace

/-- The member function `Allocate(size_t alignment, size_t size)`. The first component is the
returned pointer, `none` when `std::bad_alloc` is thrown; the second is the allocator afterwards.
Each `if (std::align(...))` tests the returned pointer against null. -/
def Allocate (s : StackMemoryAllocator) (alignment size : Nat) :
    Option Nat × StackMemoryAllocator :=
  let aligned := std.align alignment size s.m_nextPlace s.GetRemainingSize
  if aligned.1 ≠ 0 then
    let place := aligned.2.1
    let infoPlace := wadd place size
    let remainingSize := wsub aligned.2.2 size
    let alignedInfo :=
      std.align allocationInfoAlignment allocationInfoSize infoPlace remainingSize
    if alignedInfo.1 ≠ 0 then
      let infoPlace := alignedInfo.2.1
      let allocationEnd := wadd infoPlace allocationInfoSize
      (some place,
        { s with
          memory := writeAllocationSize s.memory infoPlace (wsub allocationEnd s.m_nextPlace)
          m_nextPlace := allocationEnd })
    else (none, s)
  else (none, s)

/-- The member function `AllocateTight(size_t size)`. The first component is the returned
pointer, `none` when `std::bad_alloc` is thrown; the second is the allocator afterwards. -/
def AllocateTight (s : StackMemoryAllocator) (size : Nat) : Option Nat × StackMemoryAllocator :=
  let wholeAllocation := wadd size allocationInfoSize
  if s.GetRemainingSize ≥ wholeAllocation then
    let infoPlace := wadd s.m_nextPlace size
    let place := s.m_nextPlace
    (some place,
      { s with
        memory := writeAllocationSize s.memory infoPlace wholeAllocation
        m_nextPlace := wadd s.m_nextPlace wholeAllocation })
  else (none, s)

/-- The member function `Free`. The first component is the returned `bool`. -/
def Free (s : StackMemoryAllocator) : Bool × StackMemoryAllocator :=
  if s.m_nextPlace = s.m_buffer then (false, s)
  else
    let infoPlace := wsub s.m_nextPlace allocationInfoSize
    (true, { s with m_nextPlace := wsub s.m_nextPlace (readAllocationSize s.memory infoPlace) })

/-- The member function `Reset`. -/
def Reset (s : StackMemoryAllocator) : StackMemoryAllocator :=
  { s with m_nextPlace := s.m_buffer }

/-- The member function `Has`. -/
def Has (s : StackMemoryAllocator) (pointer : Nat) : Bool :=
  decide (pointer ≥ s.m_buffer) && decide (pointer < wadd s.m_buffer s.bufferSize)

/-- The data-model invariant of an allocator: the buffer lies in the address space, its
one-past-the-end address included, and the cursor `m_nextPlace` lies between the start and the
end of the buffer. -/
def WellFormed (s : StackMemoryAllocator) : Prop :=
  s.m_buffer ≤ s.m_nextPlace ∧ s.m_nextPlace ≤ s.m_buffer + s.bufferSize ∧
    s.m_buffer + s.bufferSize < 2 ^ 64

instance (s : StackMemoryAllocator) : Decidable (WellFormed s) := by
  unfold WellFormed; infer_instance

end StackMemoryAllocator

/-- An allocator of capacity 64 whose buffer starts at address 4096, over zeroed memory. -/
def fresh64 : StackMemoryAllocator := StackMemoryAllocator.ctorBuffer 64 4096 (fun _ => 0)

end Zor.MemoryAllocators

namespace Zor.MemoryAllocators

/-! ## Sequences of calls and the live allocations -/

/-- A call of one of the member functions that change the allocator. -/
inductive Call where
  | Allocate (alignment size : Nat)
  | AllocateTight (size : Nat)
  | Free
  | Reset

/-- An allocation as its caller sees it: the pointer it got and the size it asked for, with the
value `m_nextPlace` had before the call. -/
structure Allocation where
  /-- The value of `m_nextPlace` before the call. -/
  cursor : Nat
  /-- The returned pointer. -/
  place : Nat
  /-- The requested size. -/
  size : Nat

/-- The allocator after a call, with the live allocations, most recent first: a call that
returns a pointer adds an allocation, a `Free` that returns `true` releases the most recent
one, `Reset` releases all. -/
def Call.run (s : StackMemoryAllocator) (live : List Allocation) :
    Call → StackMemoryAllocator × List Allocation
  | .Allocate alignment size =>
    ((s.Allocate alignment size).2,
      match (s.Allocate alignment size).1 with
      | some place => ⟨s.m_nextPlace, place, size⟩ :: live
      | none => live)
  | .AllocateTight size =>
    ((s.AllocateTight size).2,
      match (s.AllocateTight size).1 with
      | some place => ⟨s.m_nextPlace, place, size⟩ :: live
      | none => live)
  | .Free => (s.Free.2, if s.Free.1 then live.tail else live)
  | .Reset => (s.Reset, [])

/-- The allocator and the live allocations after a sequence of calls. -/
def runCalls (s : StackMemoryAllocator) (live : List Allocation) :
    List Call → StackMemoryAllocator × List Allocation
  | [] => (s, live)
  | c :: cs => runCalls (c.run s live).1 (c.run s live).2 cs

/-- The arguments of a call are in the range where `size + allocationInfoSize` does not wrap
in `AllocateTight` and the alignment given to `Allocate` is a power of two. -/
def Call.InRange : Call → Prop
  | .Allocate alignment _ => ∃ k, k < 64 ∧ alignment = 2 ^ k
  | .AllocateTight size => size + allocationInfoSize < 2 ^ 64
  | .Free => True
  | .Reset => True

/-- The bytes from `base` to `top` are the spans of the allocations of the list, most recent
first: each span starts at the cursor its allocation found, holds the payload, and ends with an
`AllocationInfo` that stores the length of the span. -/
def SpanChain (mem : Memory) (base : Nat) : Nat → List Allocation → Prop
  | top, [] => top = base
  | top, a :: rest =>
    a.cursor ≤ a.place ∧ a.place + a.size + allocationInfoSize ≤ top ∧
      readAllocationSize mem (top - allocationInfoSize) = top - a.cursor ∧
      SpanChain mem base a.cursor rest

/-- The allocator after `n` calls of `Free`. -/
def freeTimes (s : StackMemoryAllocator) : Nat → StackMemoryAllocator
  | 0 => s
  | n + 1 => freeTimes s.Free.2 n

end Zor.MemoryAllocators

/-! ## Construction by move and destruction -/

namespace std

/-- The function `free` of `<cstdlib>`: the block it gives back to the heap, `none` for a null
pointer, for which it does nothing. -/
def free (ptr : Nat) : Option Nat := if ptr = 0 then none else some ptr

end std

namespace Zor.MemoryAllocators

namespace StackMemoryAllocator

/-- The move constructor `StackMemoryAllocator(StackMemoryAllocator&& other)`. The first
component is the constructed allocator, the second is `other` afterwards. -/
def moveCtor (other : StackMemoryAllocator) : StackMemoryAllocator × StackMemoryAllocator :=
  ({ bufferSize := other.bufferSize, m_buffer := other.m_buffer,
     m_nextPlace := other.m_nextPlace, memory := other.memory },
    { other with m_buffer := 0 })

/-- The destructor `~StackMemoryAllocator()`: the block it gives back to the heap. -/
def dtor (s : StackMemoryAllocator) : Option Nat := std.free s.m_buffer

/-- The member function `KillBufferPointer`. -/
def KillBufferPointer (s : StackMemoryAllocator) : StackMemoryAllocator :=
  { s with m_buffer := 0 }

end StackMemoryAllocator

/-- The lengths of the spans between `top` and the cursors that the allocations of the list
found, most recent first. -/
def spanLengths : Nat → List Allocation → List Nat
  | _, [] => []
  | top, a :: rest => (top - a.cursor) :: spanLengths a.cursor rest

end Zor.MemoryAllocators

namespace Zor.MemoryAllocators

open StackMemoryAllocator

/-! ## Alignment arithmetic -/

theorem alignUp_dvd (x a : Nat) (ha : 0 < a) : a ∣ alignUp x a := by
  unfold alignUp
  by_cases h : x % a = 0
  · simp [h]; exact Nat.dvd_of_mod_eq_zero h
  · have hlt : x % a < a := Nat.mod_lt x ha
    have : (a - x % a) % a = a - x % a := Nat.mod_eq_of_lt (by omega)
    rw [this]
    have hx := Nat.div_add_mod x a
    have : x + (a - x % a) = a * (x / a + 1) := by
      rw [Nat.mul_add, Nat.mul_one]; omega
    rw [this]; exact Nat.dvd_mul_right _ _

theorem alignUp_ge (x a : Nat) : x ≤ alignUp x a := by unfold alignUp; omega

theorem alignUp_lt (x a : Nat) (ha : 0 < a) : alignUp x a < x + a := by
  unfold alignUp
  have := Nat.mod_lt (a - x % a) ha
  omega

theorem alignUp_least (x a m : Nat) (ha : 0 < a) (hm : a ∣ m) (hx : x ≤ m) :
    alignUp x a ≤ m := by
  obtain ⟨c, rfl⟩ := hm
  obtain ⟨d, hd⟩ := alignUp_dvd x a ha
  have h1 := alignUp_lt x a ha
  rw [hd] at h1 ⊢
  have h2 : a * d < a * (c + 1) := by rw [Nat.mul_add, Nat.mul_one]; omega
  have h3 := Nat.lt_of_mul_lt_mul_left h2
  exact Nat.mul_le_mul_left a (by omega)

theorem alignUp_of_dvd (x a : Nat) (h : a ∣ x) : alignUp x a = x := by
  unfold alignUp
  rw [Nat.mod_eq_zero_of_dvd h]; simp

/-- Masking with `-2 ^ k` clears the `k` low bits of a 64-bit value. -/
theorem and_neg_two_pow (k : Nat) (hk : k ≤ 64) (y : Nat) (hy : y < 2 ^ 64) :
    y &&& (2 ^ 64 - 2 ^ k) = 2 ^ k * (y / 2 ^ k) := by
  apply Nat.eq_of_testBit_eq
  intro i
  have h1 : (2 : Nat) ^ 64 - 2 ^ k = 2 ^ k * (2 ^ (64 - k) - 1) := by
    rw [Nat.mul_sub, ← pow_add]
    congr 1
    · congr 1; omega
    · simp
  rw [Nat.testBit_and, h1, Nat.testBit_mul_pow_two, Nat.testBit_mul_pow_two,
    Nat.testBit_two_pow_sub_one, ← Nat.shiftRight_eq_div_pow, Nat.testBit_shiftRight]
  by_cases hik : k ≤ i
  · have e : k + (i - k) = i := by omega
    by_cases h64 : i < 64
    · have : i - k < 64 - k := by omega
      simp [hik, this, e]
    · have : ¬ (i - k < 64 - k) := by omega
      have h0 : y.testBit i = false := by
        apply Nat.testBit_lt_two_pow
        calc y < 2 ^ 64 := hy
          _ ≤ 2 ^ i := Nat.pow_le_pow_right (by norm_num) (by omega)
      simp [hik, this, h0]
  · simp [hik]

/-- The expression `(intptr - 1u + align) & -align` of `std::align` is `alignUp intptr align`
reduced modulo `2 ^ 64`. -/
theorem aligned_eq (k : Nat) (hk : k < 64) (ptr : Nat) :
    wadd (wsub ptr 1) (2 ^ k) &&& wneg (2 ^ k) = alignUp ptr (2 ^ k) % 2 ^ 64 := by
  have ha : 0 < 2 ^ k := Nat.pos_pow_of_pos k (by norm_num)
  have ha64 : 2 ^ k < 2 ^ 64 := Nat.pow_lt_pow_right (by norm_num) hk
  have hneg : wneg (2 ^ k) = 2 ^ 64 - 2 ^ k := by
    unfold wneg wsub
    rw [Nat.mod_eq_of_lt ha64, Nat.zero_add, Nat.mod_eq_of_lt (by omega)]
  have hy : wadd (wsub ptr 1) (2 ^ k) < 2 ^ 64 := Nat.mod_lt _ (by norm_num)
  rw [hneg, and_neg_two_pow k (by omega) _ hy]
  obtain ⟨c, hc⟩ : 2 ^ k ∣ alignUp ptr (2 ^ k) % 2 ^ 64 :=
    (Nat.dvd_mod_iff (Nat.pow_dvd_pow 2 (by omega))).2 (alignUp_dvd ptr _ ha)
  have hlt : alignUp ptr (2 ^ k) % 2 ^ 64 < 2 ^ 64 := Nat.mod_lt _ (by norm_num)
  have hb : (2 : Nat) ^ 64 = 2 ^ k * 2 ^ (64 - k) := by rw [← pow_add]; congr 1; omega
  have hroom : alignUp ptr (2 ^ k) % 2 ^ 64 + 2 ^ k ≤ 2 ^ 64 := by
    rw [hc] at hlt ⊢
    rw [hb] at hlt ⊢
    have := Nat.lt_of_mul_lt_mul_left hlt
    calc 2 ^ k * c + 2 ^ k = 2 ^ k * (c + 1) := by rw [Nat.mul_add, Nat.mul_one]
      _ ≤ 2 ^ k * 2 ^ (64 - k) := Nat.mul_le_mul_left _ (by omega)
  have h1 := alignUp_ge ptr (2 ^ k)
  have h2 := alignUp_lt ptr (2 ^ k) ha
  have hy2 : wadd (wsub ptr 1) (2 ^ k)
      = alignUp ptr (2 ^ k) % 2 ^ 64 + (ptr + 2 ^ k - 1 - alignUp ptr (2 ^ k)) := by
    unfold wadd wsub
    generalize alignUp ptr (2 ^ k) = A at *
    generalize (2 : Nat) ^ k = a at *
    omega
  rw [hy2, hc, Nat.mul_add_div ha, Nat.div_eq_of_lt (by omega)]
  simp

/-- What `std::align` computes for a power-of-two alignment: when `size` bytes fit after the
padding up to the next multiple of the alignment, it returns that multiple and sets `ptr` to it
and `space` to the space left after the padding; otherwise it returns a null pointer and leaves
`ptr` and `space` as they were. -/
theorem align_eq (k : Nat) (hk : k < 64) (size ptr space : Nat) (hsp : space < 2 ^ 64) :
    std.align (2 ^ k) size ptr space =
      if size ≤ space ∧ alignUp ptr (2 ^ k) - ptr ≤ space - size then
        (alignUp ptr (2 ^ k) % 2 ^ 64, alignUp ptr (2 ^ k) % 2 ^ 64,
          space - (alignUp ptr (2 ^ k) - ptr))
      else (0, ptr, space) := by
  have ha : 0 < 2 ^ k := Nat.pos_pow_of_pos k (by norm_num)
  have ha64 : 2 ^ k < 2 ^ 64 := Nat.pow_lt_pow_right (by norm_num) hk
  have h1 := alignUp_ge ptr (2 ^ k)
  have h2 := alignUp_lt ptr (2 ^ k) ha
  have hd : wsub (alignUp ptr (2 ^ k) % 2 ^ 64) ptr = alignUp ptr (2 ^ k) - ptr := by
    unfold wsub
    generalize alignUp ptr (2 ^ k) = A at *
    generalize (2 : Nat) ^ k = a at *
    omega
  simp only [std.align, aligned_eq k hk, hd]
  by_cases hs : space < size
  · rw [if_pos hs, if_neg (by omega)]
  · have hss : wsub space size = space - size := by unfold wsub; omega
    rw [if_neg hs, hss]
    by_cases hdd : alignUp ptr (2 ^ k) - ptr > space - size
    · rw [if_pos hdd, if_neg (by omega)]
    · have hsd : wsub space (alignUp ptr (2 ^ k) - ptr)
          = space - (alignUp ptr (2 ^ k) - ptr) := by
        unfold wsub
        generalize alignUp ptr (2 ^ k) = A at *
        omega
      rw [if_neg hdd, if_pos (by omega), hsd]

/-! ## Loads and stores -/

theorem wadd_inj (a i j : Nat) (hi : i < 2 ^ 64) (hj : j < 2 ^ 64) (h : wadd a i = wadd a j) :
    i = j := by
  unfold wadd at h; omega

/-- A store changes no byte outside the addresses it writes. -/
theorem storeBytes_frame (m : Memory) (a v x : Nat) :
    ∀ n, (∀ i, i < n → x ≠ wadd a i) → storeBytes m a v n x = m x
  | 0, _ => rfl
  | n + 1, h => by
    simp only [storeBytes, storeByte]
    rw [if_neg (h n (by omega))]
    exact storeBytes_frame m a v x n (fun i hi => h i (by omega))

/-- The byte that a store leaves at its `i`-th address. -/
theorem storeBytes_at (m : Memory) (a v i : Nat) :
    ∀ n, n ≤ 2 ^ 64 → i < n → storeBytes m a v n (wadd a i) = v / 256 ^ i % 256
  | 0, _, hi => by omega
  | n + 1, hn, hi => by
    simp only [storeBytes, storeByte]
    by_cases h : i = n
    · subst h; rw [if_pos rfl]
    · have hne : wadd a i ≠ wadd a n := fun e => h (wadd_inj a i n (by omega) (by omega) e)
      rw [if_neg hne]
      exact storeBytes_at m a v i n (by omega) (by omega)

/-- A load reads only the bytes at its own addresses. -/
theorem loadBytes_congr (m1 m2 : Memory) (a : Nat) :
    ∀ n, (∀ i, i < n → m1 (wadd a i) = m2 (wadd a i)) → loadBytes m1 a n = loadBytes m2 a n
  | 0, _ => rfl
  | n + 1, h => by
    simp only [loadBytes]
    rw [loadBytes_congr m1 m2 a n (fun i hi => h i (by omega)), h n (by omega)]

/-- A load after a store at the same address returns the stored bytes. -/
theorem loadBytes_storeBytes (m : Memory) (a v N : Nat) (hN : N ≤ 2 ^ 64) :
    ∀ n, n ≤ N → loadBytes (storeBytes m a v N) a n = v % 256 ^ n
  | 0, _ => by simp [loadBytes, Nat.mod_one]
  | n + 1, hn => by
    simp only [loadBytes]
    rw [loadBytes_storeBytes m a v N hN n (by omega), storeBytes_at m a v n N hN (by omega),
      Nat.mod_pow_succ, Nat.mul_comm]

/-- Reading back the `allocationSize` just written gives the written value. -/
theorem readAllocationSize_write (m : Memory) (a v : Nat) (hv : v < 2 ^ 64) :
    readAllocationSize (writeAllocationSize m a v) a = v := by
  unfold readAllocationSize writeAllocationSize allocationInfoSize
  rw [loadBytes_storeBytes m a v 8 (by norm_num) 8 (le_refl _)]
  exact Nat.mod_eq_of_lt (by norm_num; omega)

/-- Writing an `AllocationInfo` at `a` changes no byte outside `[a, a + 8)`. -/
theorem writeAllocationSize_frame (m : Memory) (a v x : Nat) (ha : a + 8 ≤ 2 ^ 64)
    (hx : x < a ∨ a + 8 ≤ x) : writeAllocationSize m a v x = m x := by
  unfold writeAllocationSize allocationInfoSize
  apply storeBytes_frame
  intro i hi
  unfold wadd
  omega

/-- Reading an `AllocationInfo` at `b` depends only on the bytes of `[b, b + 8)`. -/
theorem readAllocationSize_congr (m1 m2 : Memory) (b : Nat) (hb : b + 8 ≤ 2 ^ 64)
    (h : ∀ x, b ≤ x → x < b + 8 → m1 x = m2 x) :
    readAllocationSize m1 b = readAllocationSize m2 b := by
  unfold readAllocationSize allocationInfoSize
  apply loadBytes_congr
  intro i hi
  apply h <;> unfold wadd <;> omega

/-! ## The operations on a well-formed allocator -/

theorem isLeastAligned_alignUp (a x : Nat) (ha : 0 < a) : IsLeastAligned a x (alignUp x a) :=
  ⟨alignUp_dvd x a ha, alignUp_ge x a, fun m hm hx => alignUp_least x a m ha hm hx⟩

theorem GetRemainingSize_eq (s : StackMemoryAllocator) (hwf : s.WellFormed) :
    s.GetRemainingSize = s.m_buffer + s.bufferSize - s.m_nextPlace := by
  obtain ⟨h1, h2, h3⟩ := hwf
  unfold GetRemainingSize wadd wsub
  omega

theorem alignUp_zero (a : Nat) : alignUp 0 a = 0 := by
  unfold alignUp
  simp

/-- What `Allocate` does on a well-formed allocator for a power-of-two alignment: with `p` the
cursor aligned up and `q` the end of the payload aligned up for the `AllocationInfo`, it
succeeds exactly when the cursor is not the null address, so that `p` is not null, and the
`AllocationInfo` at `q` ends inside the buffer. -/
theorem Allocate_eq (s : StackMemoryAllocator) (k size : Nat) (hwf : s.WellFormed)
    (hk : k < 64) :
    s.Allocate (2 ^ k) size =
      if s.m_nextPlace ≠ 0 ∧
          alignUp (alignUp s.m_nextPlace (2 ^ k) + size) 8 + 8 ≤ s.m_buffer + s.bufferSize then
        (some (alignUp s.m_nextPlace (2 ^ k)),
          { s with
            memory := writeAllocationSize s.memory
              (alignUp (alignUp s.m_nextPlace (2 ^ k) + size) 8)
              (alignUp (alignUp s.m_nextPlace (2 ^ k) + size) 8 + 8 - s.m_nextPlace)
            m_nextPlace := alignUp (alignUp s.m_nextPlace (2 ^ k) + size) 8 + 8 })
      else (none, s) := by
  have hrem := GetRemainingSize_eq s hwf
  obtain ⟨h1, h2, h3⟩ := hwf
  have hp1 := alignUp_ge s.m_nextPlace (2 ^ k)
  have hp0 := alignUp_zero (2 ^ k)
  have hq1 := alignUp_ge (alignUp s.m_nextPlace (2 ^ k) + size) 8
  have h8 : allocationInfoAlignment = 2 ^ 3 := rfl
  have e8 : (2 : Nat) ^ 3 = 8 := by norm_num
  simp only [Allocate]
  rw [align_eq k hk size _ _ (by omega), hrem]
  by_cases hn : s.m_nextPlace = 0
  · -- the aligned address is null, or `std::align` fails: in both cases the pointer is null
    have hnull : (if size ≤ s.m_buffer + s.bufferSize - s.m_nextPlace ∧
          alignUp s.m_nextPlace (2 ^ k) - s.m_nextPlace
            ≤ s.m_buffer + s.bufferSize - s.m_nextPlace - size then
          (alignUp s.m_nextPlace (2 ^ k) % 2 ^ 64, alignUp s.m_nextPlace (2 ^ k) % 2 ^ 64,
            s.m_buffer + s.bufferSize - s.m_nextPlace
              - (alignUp s.m_nextPlace (2 ^ k) - s.m_nextPlace))
        else (0, s.m_nextPlace, s.m_buffer + s.bufferSize - s.m_nextPlace)).1 = 0 := by
      split_ifs
      · show alignUp s.m_nextPlace (2 ^ k) % 2 ^ 64 = 0
        rw [hn, hp0, Nat.zero_mod]
      · rfl
    rw [if_neg (by rw [hnull]; exact fun h => h rfl), if_neg (fun h => h.1 hn)]
  · generalize alignUp s.m_nextPlace (2 ^ k) = p at *
    by_cases hc1 : size ≤ s.m_buffer + s.bufferSize - s.m_nextPlace ∧
        p - s.m_nextPlace ≤ s.m_buffer + s.bufferSize - s.m_nextPlace - size
    · have hpm : p % 2 ^ 64 = p := Nat.mod_eq_of_lt (by omega)
      have hi : wadd p size = p + size := by unfold wadd; omega
      have hr : wsub (s.m_buffer + s.bufferSize - s.m_nextPlace - (p - s.m_nextPlace)) size
          = s.m_buffer + s.bufferSize - (p + size) := by unfold wsub; omega
      have hpn : p ≠ 0 := by omega
      simp only [if_pos hc1, hpm, hi, hr, ne_eq, hpn, not_false_eq_true, if_true]
      rw [h8, align_eq 3 (by norm_num) _ _ _ (by omega), e8]
      generalize alignUp (p + size) 8 = q at *
      by_cases hc2 : allocationInfoSize ≤ s.m_buffer + s.bufferSize - (p + size) ∧
          q - (p + size) ≤ s.m_buffer + s.bufferSize - (p + size) - allocationInfoSize
      · have hc2' := hc2
        unfold allocationInfoSize at hc2'
        have hqm : q % 2 ^ 64 = q := Nat.mod_eq_of_lt (by omega)
        have hqn : q ≠ 0 := by omega
        have he : wadd q allocationInfoSize = q + 8 := by
          unfold wadd allocationInfoSize; omega
        have hv : wsub (q + 8) s.m_nextPlace = q + 8 - s.m_nextPlace := by unfold wsub; omega
        simp only [if_pos hc2, hqm, he, hv, ne_eq, hqn, not_false_eq_true, if_true]
        rw [if_pos ⟨hn, by omega⟩]
      · have hc2' := hc2
        unfold allocationInfoSize at hc2'
        have hcond : ¬ (s.m_nextPlace ≠ 0 ∧ q + 8 ≤ s.m_buffer + s.bufferSize) :=
          fun h => by omega
        simp only [if_neg hc2, ne_eq, not_true_eq_false, if_false]
        rw [if_neg hcond]
    · have hcond : ¬ (s.m_nextPlace ≠ 0 ∧
          alignUp (p + size) 8 + 8 ≤ s.m_buffer + s.bufferSize) := fun h => by omega
      simp only [if_neg hc1, ne_eq, not_true_eq_false, if_false]
      rw [if_neg hcond]

/-- What `AllocateTight` does on a well-formed allocator when `size + allocationInfoSize` does
not wrap. -/
theorem AllocateTight_eq (s : StackMemoryAllocator) (size : Nat) (hwf : s.WellFormed)
    (hsize : size + allocationInfoSize < 2 ^ 64) :
    s.AllocateTight size =
      if s.m_nextPlace + size + 8 ≤ s.m_buffer + s.bufferSize then
        (some s.m_nextPlace,
          { s with
            memory := writeAllocationSize s.memory (s.m_nextPlace + size) (size + 8)
            m_nextPlace := s.m_nextPlace + size + 8 })
      else (none, s) := by
  have hrem := GetRemainingSize_eq s hwf
  obtain ⟨h1, h2, h3⟩ := hwf
  unfold allocationInfoSize at hsize
  have hw : wadd size allocationInfoSize = size + 8 := by
    unfold wadd allocationInfoSize; omega
  unfold AllocateTight
  simp only [hw, hrem]
  by_cases hc : s.m_buffer + s.bufferSize - s.m_nextPlace ≥ size + 8
  · rw [if_pos hc, if_pos (by omega)]
    have hi : wadd s.m_nextPlace size = s.m_nextPlace + size := by unfold wadd; omega
    have he : wadd s.m_nextPlace (size + 8) = s.m_nextPlace + size + 8 := by unfold wadd; omega
    rw [hi, he]
  · rw [if_neg hc, if_neg (by omega)]

/-- The public constructor gives the allocator `fresh64` when `malloc` returns 4096. -/
theorem ctor_fresh64 : ctor 64 4096 (fun _ => 0) = some fresh64 := rfl

/-- Round trip of `Allocate` on a well-formed allocator: after a successful call with a
power-of-two alignment, `Free` returns `true` and puts the cursor back. -/
theorem Free_Allocate (s : StackMemoryAllocator) (k size p : Nat) (hwf : s.WellFormed)
    (hk : k < 64) (h : (s.Allocate (2 ^ k) size).1 = some p) :
    (s.Allocate (2 ^ k) size).2.Free.1 = true ∧
      (s.Allocate (2 ^ k) size).2.Free.2.m_nextPlace = s.m_nextPlace ∧
      (s.Allocate (2 ^ k) size).2.Free.2.GetRemainingSize = s.GetRemainingSize := by
  rw [Allocate_eq s k size hwf hk] at h ⊢
  obtain ⟨h1, h2, h3⟩ := hwf
  have hp1 := alignUp_ge s.m_nextPlace (2 ^ k)
  have hq1 := alignUp_ge (alignUp s.m_nextPlace (2 ^ k) + size) 8
  generalize alignUp (alignUp s.m_nextPlace (2 ^ k) + size) 8 = q at *
  split_ifs at h ⊢ with hc
  · have hne : q + 8 ≠ s.m_buffer := by omega
    have hi : wsub (q + 8) allocationInfoSize = q := by
      unfold wsub allocationInfoSize; omega
    simp only [Free, if_neg hne, hi]
    rw [readAllocationSize_write _ _ _ (by omega)]
    have hb : wsub (q + 8) (q + 8 - s.m_nextPlace) = s.m_nextPlace := by unfold wsub; omega
    simp only [GetRemainingSize, hb, and_self]

/-- Round trip of `AllocateTight` on a well-formed allocator when `size + allocationInfoSize`
does not wrap: after a successful call, `Free` returns `true` and puts the cursor back. -/
theorem Free_AllocateTight (s : StackMemoryAllocator) (size p : Nat) (hwf : s.WellFormed)
    (hsize : size + allocationInfoSize < 2 ^ 64) (h : (s.AllocateTight size).1 = some p) :
    (s.AllocateTight size).2.Free.1 = true ∧
      (s.AllocateTight size).2.Free.2.m_nextPlace = s.m_nextPlace ∧
      (s.AllocateTight size).2.Free.2.GetRemainingSize = s.GetRemainingSize := by
  rw [AllocateTight_eq s size hwf hsize] at h ⊢
  obtain ⟨h1, h2, h3⟩ := hwf
  split_ifs at h ⊢ with hc
  · have hne : s.m_nextPlace + size + 8 ≠ s.m_buffer := by omega
    have hi : wsub (s.m_nextPlace + size + 8) allocationInfoSize = s.m_nextPlace + size := by
      unfold wsub allocationInfoSize; omega
    simp only [Free, if_neg hne, hi]
    rw [readAllocationSize_write _ _ _ (by omega)]
    have hb : wsub (s.m_nextPlace + size + 8) (size + 8) = s.m_nextPlace := by
      unfold wsub; omega
    simp only [GetRemainingSize, hb, and_self]

/-! ## The span chain away from the wrap in `AllocateTight` -/

theorem SpanChain.base_le {mem : Memory} {base : Nat} :
    ∀ {top : Nat} {live : List Allocation}, SpanChain mem base top live → base ≤ top
  | _, [], h => by simp only [SpanChain] at h; omega
  | _, a :: rest, h => by
    obtain ⟨h1, h2, _, h4⟩ := h
    have := SpanChain.base_le h4
    omega

/-- A span chain depends only on the bytes below its top. -/
theorem SpanChain.congr {m1 m2 : Memory} {base : Nat} :
    ∀ {top : Nat} {live : List Allocation}, top ≤ 2 ^ 64 →
      (∀ x, x < top → m1 x = m2 x) → SpanChain m1 base top live → SpanChain m2 base top live
  | _, [], _, _, h => h
  | top, a :: rest, ht, hm, h => by
    obtain ⟨h1, h2, h3, h4⟩ := h
    unfold allocationInfoSize at h2 h3
    refine ⟨h1, h2, ?_, SpanChain.congr (by omega) (fun x hx => hm x (by omega)) h4⟩
    rw [← h3]
    unfold allocationInfoSize
    exact (readAllocationSize_congr m1 m2 (top - 8) (by omega)
      (fun x _ hx => hm x (by omega))).symm

/-- Every allocation of a span chain has its payload inside the chain, below the cursor that
any later allocation of the chain found. -/
theorem SpanChain.payload_bounds {mem : Memory} {base : Nat} :
    ∀ {top : Nat} {live : List Allocation}, SpanChain mem base top live →
      ∀ a ∈ live, base ≤ a.place ∧ a.place + a.size + allocationInfoSize ≤ top
  | _, [], _, a, ha => by simp at ha
  | top, b :: rest, h, a, ha => by
    obtain ⟨h1, h2, _, h4⟩ := h
    have hb := SpanChain.base_le h4
    rcases List.mem_cons.1 ha with rfl | hr
    · exact ⟨by omega, h2⟩
    · have := SpanChain.payload_bounds h4 a hr
      omega

/-- The payloads of the allocations of a span chain are pairwise disjoint: each ends before
the next more recent one starts. -/
theorem SpanChain.pairwise_disjoint {mem : Memory} {base : Nat} :
    ∀ {top : Nat} {live : List Allocation}, SpanChain mem base top live →
      live.Pairwise (fun a b => b.place + b.size ≤ a.place)
  | _, [], _ => List.Pairwise.nil
  | _, b :: rest, h => by
    obtain ⟨h1, _, _, h4⟩ := h
    refine List.Pairwise.cons (fun a ha => ?_) (SpanChain.pairwise_disjoint h4)
    have := SpanChain.payload_bounds h4 a ha
    omega

/-- A call in range preserves the invariant of the allocator with its live allocations: the
allocator is well formed and the bytes from `m_buffer` to `m_nextPlace` are the span chain of
the live allocations. -/
theorem run_preserves_spanChain (s : StackMemoryAllocator) (live : List Allocation) (c : Call)
    (hc : c.InRange) (hwf : s.WellFormed)
    (hch : SpanChain s.memory s.m_buffer s.m_nextPlace live) :
    (c.run s live).1.WellFormed ∧
      SpanChain (c.run s live).1.memory (c.run s live).1.m_buffer (c.run s live).1.m_nextPlace
        (c.run s live).2 := by
  have hwf' := hwf
  obtain ⟨h1, h2, h3⟩ := hwf'
  cases c with
  | Allocate alignment size =>
    obtain ⟨k, hk, rfl⟩ := hc
    simp only [Call.run]
    rw [Allocate_eq s k size hwf hk]
    have hp1 := alignUp_ge s.m_nextPlace (2 ^ k)
    have hq1 := alignUp_ge (alignUp s.m_nextPlace (2 ^ k) + size) 8
    generalize alignUp (alignUp s.m_nextPlace (2 ^ k) + size) 8 = q at *
    generalize alignUp s.m_nextPlace (2 ^ k) = p at *
    split_ifs with hfit
    · refine ⟨⟨by show s.m_buffer ≤ q + 8; omega, hfit.2, h3⟩, ?_, ?_, ?_, ?_⟩
      · exact hp1
      · show p + size + allocationInfoSize ≤ q + 8
        unfold allocationInfoSize; omega
      · show readAllocationSize (writeAllocationSize s.memory q (q + 8 - s.m_nextPlace))
          (q + 8 - allocationInfoSize) = q + 8 - s.m_nextPlace
        have e : q + 8 - allocationInfoSize = q := by unfold allocationInfoSize; omega
        rw [e]
        exact readAllocationSize_write _ _ _ (by omega)
      · show SpanChain _ s.m_buffer s.m_nextPlace live
        exact SpanChain.congr (by omega)
          (fun x hx => (writeAllocationSize_frame s.memory q _ x (by omega)
            (Or.inl (by omega))).symm) hch
    · exact ⟨hwf, hch⟩
  | AllocateTight size =>
    have hc' : size + allocationInfoSize < 2 ^ 64 := hc
    simp only [Call.run]
    rw [AllocateTight_eq s size hwf hc']
    unfold allocationInfoSize at hc'
    split_ifs with hfit
    · refine ⟨⟨by show s.m_buffer ≤ s.m_nextPlace + size + 8; omega, hfit, h3⟩, ?_, ?_, ?_, ?_⟩
      · exact le_refl _
      · show s.m_nextPlace + size + allocationInfoSize ≤ s.m_nextPlace + size + 8
        unfold allocationInfoSize; omega
      · show readAllocationSize (writeAllocationSize s.memory (s.m_nextPlace + size) (size + 8))
          (s.m_nextPlace + size + 8 - allocationInfoSize) = s.m_nextPlace + size + 8 - s.m_nextPlace
        have e : s.m_nextPlace + size + 8 - allocationInfoSize = s.m_nextPlace + size := by
          unfold allocationInfoSize; omega
        rw [e, readAllocationSize_write _ _ _ (by omega)]
        omega
      · show SpanChain _ s.m_buffer s.m_nextPlace live
        exact SpanChain.congr (by omega)
          (fun x hx => (writeAllocationSize_frame s.memory (s.m_nextPlace + size) _ x (by omega)
            (Or.inl (by omega))).symm) hch
    · exact ⟨hwf, hch⟩
  | Free =>
    simp only [Call.run]
    cases live with
    | nil =>
      have e : s.m_nextPlace = s.m_buffer := hch
      simp only [Free, if_pos e]
      exact ⟨hwf, hch⟩
    | cons a rest =>
      obtain ⟨g1, g2, g3, g4⟩ := hch
      have gb := SpanChain.base_le g4
      unfold allocationInfoSize at g2 g3
      have hne : s.m_nextPlace ≠ s.m_buffer := by omega
      have hi : wsub s.m_nextPlace allocationInfoSize = s.m_nextPlace - 8 := by
        unfold wsub allocationInfoSize; omega
      have hb : wsub s.m_nextPlace (s.m_nextPlace - a.cursor) = a.cursor := by
        unfold wsub; omega
      simp only [Free, if_neg hne, hi, g3, hb, if_true, List.tail_cons]
      exact ⟨⟨gb, by show a.cursor ≤ s.m_buffer + s.bufferSize; omega, h3⟩, g4⟩
  | Reset =>
    simp only [Call.run, Reset]
    exact ⟨⟨le_refl _, by show s.m_buffer ≤ s.m_buffer + s.bufferSize; omega, h3⟩, rfl⟩

/-- The invariant holds after every sequence of calls in range. -/
theorem runCalls_preserves_spanChain :
    ∀ (cs : List Call) (s : StackMemoryAllocator) (live : List Allocation),
      (∀ c ∈ cs, c.InRange) → s.WellFormed →
      SpanChain s.memory s.m_buffer s.m_nextPlace live →
      (runCalls s live cs).1.WellFormed ∧
        SpanChain (runCalls s live cs).1.memory (runCalls s live cs).1.m_buffer
          (runCalls s live cs).1.m_nextPlace (runCalls s live cs).2
  | [], _, _, _, hwf, hch => ⟨hwf, hch⟩
  | c :: cs, s, live, hc, hwf, hch => by
    have h := run_preserves_spanChain s live c (hc c (List.mem_cons_self _ _)) hwf hch
    exact runCalls_preserves_spanChain cs _ _ (fun d hd => hc d (List.mem_cons_of_mem _ hd))
      h.1 h.2

/-- Non-overlap away from the wrap: when the invariant holds, the payload that a successful
`Allocate` returns starts at or after the end of every live payload. -/
theorem Allocate_disjoint_of_spanChain (s : StackMemoryAllocator) (live : List Allocation)
    (k size p : Nat) (hwf : s.WellFormed) (hk : k < 64)
    (hch : SpanChain s.memory s.m_buffer s.m_nextPlace live)
    (h : (s.Allocate (2 ^ k) size).1 = some p) :
    ∀ a ∈ live, a.place + a.size ≤ p := by
  intro a ha
  have hb := SpanChain.payload_bounds hch a ha
  rw [Allocate_eq s k size hwf hk] at h
  have hp1 := alignUp_ge s.m_nextPlace (2 ^ k)
  split_ifs at h with hfit
  simp only [Option.some.injEq] at h
  omega

/-- LIFO unwinding away from the wrap: when the invariant holds, the `i`-th call of `Free`
returns `true` and puts the cursor where the `i`-th most recent live allocation found it, and
after as many calls as there are live allocations the whole buffer remains. -/
theorem freeTimes_of_spanChain :
    ∀ (live : List Allocation) (s : StackMemoryAllocator), s.WellFormed →
      SpanChain s.memory s.m_buffer s.m_nextPlace live →
      (∀ i (hi : i < live.length), (freeTimes s i).Free.1 = true ∧
        (freeTimes s (i + 1)).m_nextPlace = (live.get ⟨i, hi⟩).cursor) ∧
      (freeTimes s live.length).m_nextPlace = s.m_buffer ∧
      (freeTimes s live.length).GetRemainingSize = s.bufferSize
  | [], s, hwf, hch => by
    have e : s.m_nextPlace = s.m_buffer := hch
    refine ⟨fun i hi => by simp at hi, e, ?_⟩
    show s.GetRemainingSize = s.bufferSize
    rw [GetRemainingSize_eq s hwf, e]; omega
  | a :: rest, s, hwf, hch => by
    have h := run_preserves_spanChain s (a :: rest) Call.Free trivial hwf hch
    have hch' := hch
    obtain ⟨g1, g2, g3, g4⟩ := hch'
    have gb := SpanChain.base_le g4
    unfold allocationInfoSize at g2 g3
    have hne : s.m_nextPlace ≠ s.m_buffer := by omega
    have hi : wsub s.m_nextPlace allocationInfoSize = s.m_nextPlace - 8 := by
      obtain ⟨h1, h2, h3⟩ := hwf
      unfold wsub allocationInfoSize; omega
    have hb : wsub s.m_nextPlace (s.m_nextPlace - a.cursor) = a.cursor := by
      obtain ⟨h1, h2, h3⟩ := hwf
      unfold wsub; omega
    have hF1 : s.Free.1 = true := by simp only [Free, if_neg hne]
    have hF2 : s.Free.2.m_nextPlace = a.cursor := by simp only [Free, if_neg hne, hi, g3, hb]
    have hFb : s.Free.2.m_buffer = s.m_buffer := by simp only [Free, if_neg hne]
    have hFs : s.Free.2.bufferSize = s.bufferSize := by simp only [Free, if_neg hne]
    simp only [Call.run, hF1, if_true, List.tail_cons] at h
    obtain ⟨ih1, ih2, ih3⟩ := freeTimes_of_spanChain rest s.Free.2 h.1 h.2
    refine ⟨?_, ?_, ?_⟩
    · intro i hi
      cases i with
      | zero => exact ⟨hF1, hF2⟩
      | succ j => exact ih1 j (by simpa using hi)
    · show (freeTimes s.Free.2 rest.length).m_nextPlace = s.m_buffer
      rw [ih2, hFb]
    · show (freeTimes s.Free.2 rest.length).GetRemainingSize = s.bufferSize
      rw [ih3, hFs]

/-- Containment away from the wrap: on a well-formed allocator `Has` is `true` for the pointer
that a successful `Allocate` with a power-of-two alignment returns. -/
theorem Has_Allocate (s : StackMemoryAllocator) (k size p : Nat) (hwf : s.WellFormed)
    (hk : k < 64) (h : (s.Allocate (2 ^ k) size).1 = some p) :
    (s.Allocate (2 ^ k) size).2.Has p = true := by
  rw [Allocate_eq s k size hwf hk] at h ⊢
  obtain ⟨h1, h2, h3⟩ := hwf
  have hp1 := alignUp_ge s.m_nextPlace (2 ^ k)
  have hq1 := alignUp_ge (alignUp s.m_nextPlace (2 ^ k) + size) 8
  split_ifs at h ⊢ with hfit
  simp only [Option.some.injEq] at h
  have hw : wadd s.m_buffer s.bufferSize = s.m_buffer + s.bufferSize := by unfold wadd; omega
  simp only [Has, hw, Bool.and_eq_true, decide_eq_true_eq]
  omega

/-- Containment away from the wrap: on a well-formed allocator `Has` is `true` for the pointer
that a successful `AllocateTight` returns when `size + allocationInfoSize` does not wrap. -/
theorem Has_AllocateTight (s : StackMemoryAllocator) (size p : Nat) (hwf : s.WellFormed)
    (hsize : size + allocationInfoSize < 2 ^ 64) (h : (s.AllocateTight size).1 = some p) :
    (s.AllocateTight size).2.Has p = true := by
  rw [AllocateTight_eq s size hwf hsize] at h ⊢
  obtain ⟨h1, h2, h3⟩ := hwf
  split_ifs at h ⊢ with hfit
  simp only [Option.some.injEq] at h
  have hw : wadd s.m_buffer s.bufferSize = s.m_buffer + s.bufferSize := by unfold wadd; omega
  simp only [Has, hw, Bool.and_eq_true, decide_eq_true_eq]
  omega

/-- On a well-formed allocator `Has` is `false` for every address outside the buffer. -/
theorem Has_outside (s : StackMemoryAllocator) (a : Nat) (hwf : s.WellFormed)
    (h : a < s.m_buffer ∨ s.m_buffer + s.bufferSize ≤ a) : s.Has a = false := by
  obtain ⟨h1, h2, h3⟩ := hwf
  have hw : wadd s.m_buffer s.bufferSize = s.m_buffer + s.bufferSize := by unfold wadd; omega
  simp only [Has, hw, Bool.and_eq_false_imp, decide_eq_true_eq, decide_eq_false_iff_not]
  omega

/-- The invariant holds in every state reached from a newly constructed allocator by calls in
range. -/
theorem spanChain_of_ctorBuffer (bufferSize buffer : Nat) (memory : Memory) (cs : List Call)
    (hb : buffer + bufferSize < 2 ^ 64) (hc : ∀ c ∈ cs, c.InRange) :
    (runCalls (ctorBuffer bufferSize buffer memory) [] cs).1.WellFormed ∧
      SpanChain (runCalls (ctorBuffer bufferSize buffer memory) [] cs).1.memory
        (runCalls (ctorBuffer bufferSize buffer memory) [] cs).1.m_buffer
        (runCalls (ctorBuffer bufferSize buffer memory) [] cs).1.m_nextPlace
        (runCalls (ctorBuffer bufferSize buffer memory) [] cs).2 :=
  runCalls_preserves_spanChain cs _ [] hc
    ⟨le_refl _, by show buffer ≤ buffer + bufferSize; omega, hb⟩ rfl

/-- The example of the specification: on the fresh allocator of capacity 64, `AllocateTight 8`
returns the buffer start, a second `AllocateTight 8` returns the address 16 bytes later, one
`Free` leaves 48 bytes remaining and a second `Free` leaves 64. -/
theorem two_tight_allocations_unwind :
    (fresh64.AllocateTight 8).1 = some 4096 ∧
      ((fresh64.AllocateTight 8).2.AllocateTight 8).1 = some (4096 + 8 + allocationInfoSize) ∧
      ((fresh64.AllocateTight 8).2.AllocateTight 8).2.Free.1 = true ∧
      ((fresh64.AllocateTight 8).2.AllocateTight 8).2.Free.2.GetRemainingSize
        = 64 - (8 + allocationInfoSize) ∧
      ((fresh64.AllocateTight 8).2.AllocateTight 8).2.Free.2.Free.1 = true ∧
      ((fresh64.AllocateTight 8).2.AllocateTight 8).2.Free.2.Free.2.GetRemainingSize = 64 := by
  decide

/-! ## The claims -/

/-- Claim C1 (round trip), at a request whose `size + allocationInfoSize` wraps: on the fresh
allocator of capacity 64 the call `AllocateTight (2 ^ 64 - 8)` returns the buffer start instead
of throwing and leaves the cursor where it was, so the `Free` that follows returns `false`. -/
theorem roundTrip_fails_for_wrapping_tight_size :
    (fresh64.AllocateTight (2 ^ 64 - 8)).1 = some 4096 ∧
      (fresh64.AllocateTight (2 ^ 64 - 8)).2.m_nextPlace = fresh64.m_nextPlace ∧
      (fresh64.AllocateTight (2 ^ 64 - 8)).2.Free.1 = false := by
  decide

/-- Claim C2 (LIFO unwinding), at a sequence with a wrapping tight size: on the fresh allocator
of capacity 64, `AllocateTight 8` and `AllocateTight (2 ^ 64 - 8)` both return a pointer; the
second call overwrites the first `AllocationInfo` with 0 and does not move the cursor, so the two
calls of `Free` that follow both return `true` and leave 48 bytes remaining, not 64. -/
theorem lifo_unwinding_fails_for_wrapping_tight_size :
    (fresh64.AllocateTight 8).1 = some 4096 ∧
      ((fresh64.AllocateTight 8).2.AllocateTight (2 ^ 64 - 8)).1 = some (4096 + 8 + 8) ∧
      ((fresh64.AllocateTight 8).2.AllocateTight (2 ^ 64 - 8)).2.Free.1 = true ∧
      ((fresh64.AllocateTight 8).2.AllocateTight (2 ^ 64 - 8)).2.Free.2.Free.1 = true ∧
      ((fresh64.AllocateTight 8).2.AllocateTight (2 ^ 64 - 8)).2.Free.2.Free.2.m_nextPlace
        = 4096 + 16 ∧
      ((fresh64.AllocateTight 8).2.AllocateTight (2 ^ 64 - 8)).2.Free.2.Free.2.GetRemainingSize
        = 48 := by
  decide

/-- Claim C3 (atomicity on failure): when `Allocate` or `AllocateTight` throws `std::bad_alloc`,
the allocator afterwards, its cursor and the memory included, is the allocator before the call;
on the fresh allocator of capacity 64, `Allocate 16 100` throws and 64 bytes remain. -/
theorem failed_allocation_changes_nothing (s : StackMemoryAllocator) (alignment size : Nat) :
    ((s.Allocate alignment size).1 = none → (s.Allocate alignment size).2 = s) ∧
      ((s.AllocateTight size).1 = none → (s.AllocateTight size).2 = s) ∧
      (fresh64.Allocate 16 100).1 = none ∧
      (fresh64.Allocate 16 100).2.GetRemainingSize = 64 := by
  refine ⟨?_, ?_, by decide, by decide⟩
  · simp only [Allocate]
    split_ifs
    · intro h; simp at h
    · intro _; rfl
    · intro _; rfl
  · unfold AllocateTight
    simp only
    split
    · intro h; simp at h
    · intro _; rfl

/-- Witness of C3: on the fresh allocator of capacity 64 both `Allocate 16 100` and
`AllocateTight 100` throw, and the allocator is unchanged. -/
theorem failed_allocation_changes_nothing_witness :
    (fresh64.Allocate 16 100).2 = fresh64 ∧ (fresh64.AllocateTight 100).2 = fresh64 :=
  ⟨(failed_allocation_changes_nothing fresh64 16 100).1 (by decide),
    (failed_allocation_changes_nothing fresh64 16 100).2.1 (by decide)⟩

/-- Claim C4 (payload placement): on a well-formed allocator, a successful `Allocate` with a
power-of-two alignment returns the least multiple of the alignment that is at least the cursor
address, and the payload lies between the cursor and the end of the buffer. -/
theorem allocate_payload_placement (s : StackMemoryAllocator) (k size p : Nat)
    (hwf : s.WellFormed) (hk : k < 64) (h : (s.Allocate (2 ^ k) size).1 = some p) :
    IsLeastAligned (2 ^ k) s.m_nextPlace p ∧ s.m_nextPlace ≤ p ∧
      p + size ≤ s.m_buffer + s.bufferSize := by
  have ha : 0 < 2 ^ k := Nat.pos_pow_of_pos k (by norm_num)
  rw [Allocate_eq s k size hwf hk] at h
  have hq1 := alignUp_ge (alignUp s.m_nextPlace (2 ^ k) + size) 8
  split_ifs at h with hc
  · simp only [Option.some.injEq] at h
    subst h
    exact ⟨isLeastAligned_alignUp _ _ ha, alignUp_ge _ _, by omega⟩

/-- Witness of C4: after `AllocateTight 3` on the fresh allocator of capacity 64 the cursor is
at 4107, and `Allocate 16 8` returns 4112. -/
theorem allocate_payload_placement_witness :
    (fresh64.AllocateTight 3).2.WellFormed ∧
      ((fresh64.AllocateTight 3).2.Allocate (2 ^ 4) 8).1 = some 4112 ∧
      IsLeastAligned (2 ^ 4) (fresh64.AllocateTight 3).2.m_nextPlace 4112 ∧
      (fresh64.AllocateTight 3).2.m_nextPlace ≤ 4112 ∧
      4112 + 8 ≤ (fresh64.AllocateTight 3).2.m_buffer + (fresh64.AllocateTight 3).2.bufferSize :=
  ⟨by decide, by decide,
    allocate_payload_placement (fresh64.AllocateTight 3).2 4 8 4112 (by decide) (by decide)
      (by decide)⟩

/-- Claim C5 (record placement and span): on a well-formed allocator, a successful `Allocate`
that returns `p` writes the `AllocationInfo` at the least multiple `q` of its alignment that is
at least `p + size`, stores there the span from the old cursor to `q + allocationInfoSize`,
moves the cursor to `q + allocationInfoSize`, and so lowers the remaining size by that span. -/
theorem allocate_record_placement (s : StackMemoryAllocator) (k size p : Nat)
    (hwf : s.WellFormed) (hk : k < 64) (h : (s.Allocate (2 ^ k) size).1 = some p) :
    ∃ q, IsLeastAligned allocationInfoAlignment (p + size) q ∧
      (s.Allocate (2 ^ k) size).2.memory =
        writeAllocationSize s.memory q (q + allocationInfoSize - s.m_nextPlace) ∧
      readAllocationSize (s.Allocate (2 ^ k) size).2.memory q =
        q + allocationInfoSize - s.m_nextPlace ∧
      (s.Allocate (2 ^ k) size).2.m_nextPlace = q + allocationInfoSize ∧
      (s.Allocate (2 ^ k) size).2.GetRemainingSize + (q + allocationInfoSize - s.m_nextPlace) =
        s.GetRemainingSize := by
  have hrem := GetRemainingSize_eq s hwf
  rw [Allocate_eq s k size hwf hk] at h ⊢
  have hp1 := alignUp_ge s.m_nextPlace (2 ^ k)
  have hq1 := alignUp_ge (alignUp s.m_nextPlace (2 ^ k) + size) 8
  have hq := isLeastAligned_alignUp 8 (alignUp s.m_nextPlace (2 ^ k) + size) (by norm_num)
  obtain ⟨h1, h2, h3⟩ := hwf
  split_ifs at h ⊢ with hc
  · simp only [Option.some.injEq] at h
    subst h
    generalize alignUp (alignUp s.m_nextPlace (2 ^ k) + size) 8 = q at *
    refine ⟨q, hq, rfl, ?_, rfl, ?_⟩
    · exact readAllocationSize_write _ _ _ (by omega)
    · rw [hrem]
      simp only [GetRemainingSize, allocationInfoSize]
      unfold wadd wsub
      omega

/-- Witness of C5: after `AllocateTight 3` on the fresh allocator of capacity 64, the call
`Allocate 16 5` returns 4112 and places its `AllocationInfo` at 4120. -/
theorem allocate_record_placement_witness :
    (fresh64.AllocateTight 3).2.WellFormed ∧
      ((fresh64.AllocateTight 3).2.Allocate (2 ^ 4) 5).1 = some 4112 ∧
      ∃ q, IsLeastAligned allocationInfoAlignment (4112 + 5) q ∧
        ((fresh64.AllocateTight 3).2.Allocate (2 ^ 4) 5).2.memory =
          writeAllocationSize (fresh64.AllocateTight 3).2.memory q
            (q + allocationInfoSize - (fresh64.AllocateTight 3).2.m_nextPlace) ∧
        readAllocationSize ((fresh64.AllocateTight 3).2.Allocate (2 ^ 4) 5).2.memory q =
          q + allocationInfoSize - (fresh64.AllocateTight 3).2.m_nextPlace ∧
        ((fresh64.AllocateTight 3).2.Allocate (2 ^ 4) 5).2.m_nextPlace = q + allocationInfoSize ∧
        ((fresh64.AllocateTight 3).2.Allocate (2 ^ 4) 5).2.GetRemainingSize +
            (q + allocationInfoSize - (fresh64.AllocateTight 3).2.m_nextPlace) =
          (fresh64.AllocateTight 3).2.GetRemainingSize :=
  ⟨by decide, by decide,
    allocate_record_placement (fresh64.AllocateTight 3).2 4 5 4112 (by decide) (by decide)
      (by decide)⟩

/-- Claim C7 (tight allocation fails when space is insufficient), at a size near the maximum:
on the fresh allocator of capacity 64, whose 64 remaining bytes are fewer than the unwrapped sum
`(2 ^ 64 - 4) + allocationInfoSize`, the call `AllocateTight (2 ^ 64 - 4)` returns the buffer
start instead of throwing, moves the cursor by 4 and writes an `AllocationInfo` that starts
4 bytes before the buffer. -/
theorem allocateTight_succeeds_on_wrapped_sum :
    fresh64.GetRemainingSize = 64 ∧
      fresh64.GetRemainingSize < (2 ^ 64 - 4) + allocationInfoSize ∧
      (fresh64.AllocateTight (2 ^ 64 - 4)).1 = some 4096 ∧
      (fresh64.AllocateTight (2 ^ 64 - 4)).2.m_nextPlace = 4100 ∧
      fresh64.memory 4092 = 0 ∧
      (fresh64.AllocateTight (2 ^ 64 - 4)).2.memory 4092 = 4 := by
  decide

/-- Claim C8 (tight allocation postcondition): on a well-formed allocator with at least
`size + allocationInfoSize` bytes remaining, `AllocateTight` returns the cursor address, writes
at the address `size` bytes after it an `AllocationInfo` that holds `size + allocationInfoSize`,
and moves the cursor by `size + allocationInfoSize`. -/
theorem allocateTight_postcondition (s : StackMemoryAllocator) (size : Nat)
    (hwf : s.WellFormed) (h : size + allocationInfoSize ≤ s.GetRemainingSize) :
    (s.AllocateTight size).1 = some s.m_nextPlace ∧
      (s.AllocateTight size).2.memory =
        writeAllocationSize s.memory (s.m_nextPlace + size) (size + allocationInfoSize) ∧
      readAllocationSize (s.AllocateTight size).2.memory (s.m_nextPlace + size) =
        size + allocationInfoSize ∧
      (s.AllocateTight size).2.m_nextPlace = s.m_nextPlace + size + allocationInfoSize ∧
      (s.AllocateTight size).2.m_buffer = s.m_buffer ∧
      (s.AllocateTight size).2.bufferSize = s.bufferSize := by
  have hrem := GetRemainingSize_eq s hwf
  have hwf' := hwf
  obtain ⟨h1, h2, h3⟩ := hwf'
  rw [hrem] at h
  have h' := h
  unfold allocationInfoSize at h'
  rw [AllocateTight_eq s size hwf (by unfold allocationInfoSize; omega)]
  rw [if_pos (by omega)]
  refine ⟨rfl, rfl, ?_, rfl, rfl, rfl⟩
  exact readAllocationSize_write _ _ _ (by omega)

/-- Witness of C8: `AllocateTight 8` on the fresh allocator of capacity 64. -/
theorem allocateTight_postcondition_witness :
    fresh64.WellFormed ∧ 8 + allocationInfoSize ≤ fresh64.GetRemainingSize ∧
      (fresh64.AllocateTight 8).1 = some 4096 ∧
      readAllocationSize (fresh64.AllocateTight 8).2.memory (4096 + 8) = 16 ∧
      (fresh64.AllocateTight 8).2.m_nextPlace = 4096 + 8 + 8 :=
  have h := allocateTight_postcondition fresh64 8 (by decide) (by decide)
  ⟨by decide, by decide, h.1, h.2.2.1, h.2.2.2.1⟩

/-- Claim C9 (non-overlap), at a sequence with a wrapping tight size: on the fresh allocator of
capacity 64, `AllocateTight (2 ^ 64 - 8)` returns address 4096 for a payload of `2 ^ 64 - 8`
bytes and does not move the cursor; with that allocation still live, `Allocate 1 8` returns
address 4096 too, so its 8 bytes lie inside the live payload. -/
theorem allocate_overlaps_live_wrapping_tight_allocation :
    (fresh64.AllocateTight (2 ^ 64 - 8)).1 = some 4096 ∧
      ((fresh64.AllocateTight (2 ^ 64 - 8)).2.Allocate 1 8).1 = some 4096 ∧
      4096 + 8 ≤ 4096 + (2 ^ 64 - 8) := by
  decide

/-- Claim C10 (containment query), at a wrapping tight size on a full buffer: on the fresh
allocator of capacity 64, `AllocateTight 56` fills the buffer, and then
`AllocateTight (2 ^ 64 - 8)` returns the one-past-the-end address 4160, for which `Has` is
`false`. -/
theorem has_fails_for_wrapping_tight_size :
    (fresh64.AllocateTight 56).1 = some 4096 ∧
      (fresh64.AllocateTight 56).2.GetRemainingSize = 0 ∧
      ((fresh64.AllocateTight 56).2.AllocateTight (2 ^ 64 - 8)).1 = some 4160 ∧
      ((fresh64.AllocateTight 56).2.AllocateTight (2 ^ 64 - 8)).2.Has 4160 = false := by
  decide

/-! ## What the calls leave unchanged -/

/-- The member function `Allocate` changes neither `m_buffer` nor `bufferSize`. -/
theorem Allocate_buffer (s : StackMemoryAllocator) (alignment size : Nat) :
    (s.Allocate alignment size).2.m_buffer = s.m_buffer ∧
      (s.Allocate alignment size).2.bufferSize = s.bufferSize := by
  simp only [Allocate]
  split_ifs
  · exact ⟨rfl, rfl⟩
  · exact ⟨rfl, rfl⟩
  · exact ⟨rfl, rfl⟩

/-- The member function `AllocateTight` changes neither `m_buffer` nor `bufferSize`. -/
theorem AllocateTight_buffer (s : StackMemoryAllocator) (size : Nat) :
    (s.AllocateTight size).2.m_buffer = s.m_buffer ∧
      (s.AllocateTight size).2.bufferSize = s.bufferSize := by
  unfold AllocateTight
  dsimp only
  split
  · exact ⟨rfl, rfl⟩
  · exact ⟨rfl, rfl⟩

/-- The member function `Free` changes neither `m_buffer` nor `bufferSize`. -/
theorem Free_buffer (s : StackMemoryAllocator) :
    s.Free.2.m_buffer = s.m_buffer ∧ s.Free.2.bufferSize = s.bufferSize := by
  unfold Free
  split
  · exact ⟨rfl, rfl⟩
  · exact ⟨rfl, rfl⟩

/-- No call changes `m_buffer` or `bufferSize`. -/
theorem run_buffer (s : StackMemoryAllocator) (live : List Allocation) (c : Call) :
    (c.run s live).1.m_buffer = s.m_buffer ∧ (c.run s live).1.bufferSize = s.bufferSize := by
  cases c with
  | Allocate alignment size => exact Allocate_buffer s alignment size
  | AllocateTight size => exact AllocateTight_buffer s size
  | Free => exact Free_buffer s
  | Reset => exact ⟨rfl, rfl⟩

/-- No sequence of calls changes `m_buffer` or `bufferSize`. -/
theorem runCalls_buffer :
    ∀ (cs : List Call) (s : StackMemoryAllocator) (live : List Allocation),
      (runCalls s live cs).1.m_buffer = s.m_buffer ∧
        (runCalls s live cs).1.bufferSize = s.bufferSize
  | [], _, _ => ⟨rfl, rfl⟩
  | c :: cs, s, live => by
    have h1 := run_buffer s live c
    have h2 := runCalls_buffer cs (c.run s live).1 (c.run s live).2
    exact ⟨h2.1.trans h1.1, h2.2.trans h1.2⟩

/-- The result of `Has` is a function of `m_buffer` and `bufferSize` alone. -/
theorem Has_congr (s t : StackMemoryAllocator) (a : Nat) (hb : t.m_buffer = s.m_buffer)
    (hs : t.bufferSize = s.bufferSize) : t.Has a = s.Has a := by
  unfold Has
  rw [hb, hs]

/-! ## The claims on the empty allocator, reset, move and containment -/

/-- Claim C11 (free on an empty allocator): when the cursor is at the start of the buffer, as
it is after construction and after `Reset`, `Free` returns `false` and leaves the allocator,
its cursor and the memory included, as it was; when the cursor is anywhere else `Free` returns
`true`. -/
theorem free_false_iff_empty (s : StackMemoryAllocator) :
    (s.m_nextPlace = s.m_buffer → s.Free = (false, s)) ∧
      (s.m_nextPlace ≠ s.m_buffer → s.Free.1 = true) ∧
      s.Reset.Free = (false, s.Reset) ∧
      (∀ bufferSize buffer memory,
        (ctorBuffer bufferSize buffer memory).Free = (false, ctorBuffer bufferSize buffer memory)) := by
  refine ⟨fun h => ?_, fun h => ?_, ?_, fun _ _ _ => ?_⟩
  · simp only [Free, if_pos h]
  · simp only [Free, if_neg h]
  · simp only [Free, Reset, if_true]
  · simp only [Free, ctorBuffer, if_true]

/-- Witness of C11: `Free` on the fresh allocator of capacity 64 returns `false` and changes
nothing, and after `AllocateTight 8` it returns `true`. -/
theorem free_false_iff_empty_witness :
    fresh64.Free = (false, fresh64) ∧ (fresh64.AllocateTight 8).2.Free.1 = true :=
  ⟨(free_false_iff_empty fresh64).1 (by decide),
    (free_false_iff_empty (fresh64.AllocateTight 8).2).2.1 (by decide)⟩

/-- Claim C12 (reset): for an allocator whose buffer lies in the address space, whatever its
cursor, after `Reset` the remaining size is `bufferSize`; a successful `Allocate` with a
power-of-two alignment then returns the least multiple of the alignment at or after `m_buffer`,
which is `m_buffer` itself when that is aligned; and a successful `AllocateTight` returns
`m_buffer`. -/
theorem reset_then_allocate (s : StackMemoryAllocator)
    (hb : s.m_buffer + s.bufferSize < 2 ^ 64) :
    s.Reset.GetRemainingSize = s.bufferSize ∧
      (∀ k size p, k < 64 → (s.Reset.Allocate (2 ^ k) size).1 = some p →
        IsLeastAligned (2 ^ k) s.m_buffer p ∧ (2 ^ k ∣ s.m_buffer → p = s.m_buffer)) ∧
      (∀ size p, (s.Reset.AllocateTight size).1 = some p → p = s.m_buffer) := by
  have hwf : s.Reset.WellFormed :=
    ⟨le_refl _, by show s.m_buffer ≤ s.m_buffer + s.bufferSize; omega, hb⟩
  refine ⟨?_, ?_, ?_⟩
  · rw [GetRemainingSize_eq _ hwf]
    show s.m_buffer + s.bufferSize - s.m_buffer = s.bufferSize
    omega
  · intro k size p hk h
    have ha : 0 < 2 ^ k := Nat.pos_pow_of_pos k (by norm_num)
    rw [Allocate_eq _ k size hwf hk] at h
    split_ifs at h with hfit
    simp only [Option.some.injEq] at h
    subst h
    exact ⟨isLeastAligned_alignUp _ _ ha, fun hd => alignUp_of_dvd _ _ hd⟩
  · intro size p h
    unfold AllocateTight at h
    dsimp only at h
    split_ifs at h with hfit
    simp only [Option.some.injEq] at h
    exact h.symm

/-- Witness of C12: the fresh allocator of capacity 64 after `AllocateTight 3` and `Reset` has
64 bytes remaining, and both `Allocate 16 8` and `AllocateTight 8` return 4096. -/
theorem reset_then_allocate_witness :
    (fresh64.AllocateTight 3).2.Reset.GetRemainingSize = 64 ∧
      ((fresh64.AllocateTight 3).2.Reset.Allocate (2 ^ 4) 8).1 = some 4096 ∧
      ((fresh64.AllocateTight 3).2.Reset.AllocateTight 8).1 = some 4096 ∧
      IsLeastAligned (2 ^ 4) 4096 4096 :=
  have h := reset_then_allocate (fresh64.AllocateTight 3).2 (by decide)
  ⟨h.1, by decide, by decide, (h.2.1 4 8 4096 (by decide) (by decide)).1⟩

/-- Claim C15 (move construction): the allocator built by the move constructor has the
`bufferSize`, `m_buffer` and `m_nextPlace` of its source, hence the same remaining size and the
same outcome of every call; the source is left with a null `m_buffer`, so that its destructor
gives nothing back to the heap. -/
theorem moveCtor_transfers (other : StackMemoryAllocator) :
    (moveCtor other).1 = other ∧
      (moveCtor other).1.GetRemainingSize = other.GetRemainingSize ∧
      (∀ (c : Call) (live : List Allocation), c.run (moveCtor other).1 live = c.run other live) ∧
      (∀ a, (moveCtor other).1.Has a = other.Has a) ∧
      (moveCtor other).2.m_buffer = 0 ∧
      (moveCtor other).2.bufferSize = other.bufferSize ∧
      (moveCtor other).2.dtor = none ∧
      (moveCtor other).1.dtor = other.dtor :=
  ⟨rfl, rfl, fun _ _ => rfl, fun _ => rfl, rfl, rfl, rfl, rfl⟩

/-- Claim C16 (containment is a pure range test): the result of `Has` is a function of
`m_buffer` and `bufferSize` alone, so it is the same before and after any call of `Allocate`,
`AllocateTight`, `Free` or `Reset` and any sequence of them; in particular it is the same for
a returned pointer after the allocation has been freed or the allocator reset. -/
theorem has_independent_of_calls (s : StackMemoryAllocator) (a : Nat) :
    (∀ t : StackMemoryAllocator, t.m_buffer = s.m_buffer → t.bufferSize = s.bufferSize →
        t.Has a = s.Has a) ∧
      (∀ alignment size, (s.Allocate alignment size).2.Has a = s.Has a) ∧
      (∀ size, (s.AllocateTight size).2.Has a = s.Has a) ∧
      s.Free.2.Has a = s.Has a ∧
      s.Reset.Has a = s.Has a ∧
      (∀ (cs : List Call) (live : List Allocation), (runCalls s live cs).1.Has a = s.Has a) ∧
      (∀ alignment size, (s.Allocate alignment size).2.Free.2.Has a
          = (s.Allocate alignment size).2.Has a ∧
        (s.Allocate alignment size).2.Reset.Has a = (s.Allocate alignment size).2.Has a) ∧
      (∀ size, (s.AllocateTight size).2.Free.2.Has a = (s.AllocateTight size).2.Has a ∧
        (s.AllocateTight size).2.Reset.Has a = (s.AllocateTight size).2.Has a) := by
  refine ⟨fun t hb hs => Has_congr s t a hb hs, fun al n => ?_, fun n => ?_, ?_, rfl,
    fun cs live => ?_, fun al n => ⟨?_, rfl⟩, fun n => ⟨?_, rfl⟩⟩
  · exact Has_congr _ _ a (Allocate_buffer s al n).1 (Allocate_buffer s al n).2
  · exact Has_congr _ _ a (AllocateTight_buffer s n).1 (AllocateTight_buffer s n).2
  · exact Has_congr _ _ a (Free_buffer s).1 (Free_buffer s).2
  · exact Has_congr _ _ a (runCalls_buffer cs s live).1 (runCalls_buffer cs s live).2
  · exact Has_congr _ _ a (Free_buffer _).1 (Free_buffer _).2
  · exact Has_congr _ _ a (Free_buffer _).1 (Free_buffer _).2

/-- Witness of C16: the pointer 4112 that `Allocate 16 8` returns after `AllocateTight 3` on the
fresh allocator of capacity 64 satisfies `Has` after the allocation, after the `Free` that
releases it and after `Reset`. -/
theorem has_independent_of_calls_witness :
    ((fresh64.AllocateTight 3).2.Allocate 16 8).1 = some 4112 ∧
      ((fresh64.AllocateTight 3).2.Allocate 16 8).2.Has 4112 = true ∧
      ((fresh64.AllocateTight 3).2.Allocate 16 8).2.Free.2.Has 4112 = true ∧
      ((fresh64.AllocateTight 3).2.Allocate 16 8).2.Reset.Has 4112 = true :=
  have h := (has_independent_of_calls (fresh64.AllocateTight 3).2 4112).2.2.2.2.2.2.1 16 8
  ⟨by decide, by decide, h.1.trans (by decide), h.2.trans (by decide)⟩

/-! ## The claims on agreement of the two allocations and on overhead -/

/-- Cursor bounds away from the wrap: in every state reached from a newly constructed allocator
by calls in range, the cursor lies in the buffer and the remaining size is the distance from the
cursor to the end of the buffer. -/
theorem cursor_bounds_of_ctorBuffer (bufferSize buffer : Nat) (memory : Memory)
    (cs : List Call) (hb : buffer + bufferSize < 2 ^ 64) (hc : ∀ c ∈ cs, c.InRange) :
    buffer ≤ (runCalls (ctorBuffer bufferSize buffer memory) [] cs).1.m_nextPlace ∧
      (runCalls (ctorBuffer bufferSize buffer memory) [] cs).1.m_nextPlace
        ≤ buffer + bufferSize ∧
      (runCalls (ctorBuffer bufferSize buffer memory) [] cs).1.GetRemainingSize
        = buffer + bufferSize
          - (runCalls (ctorBuffer bufferSize buffer memory) [] cs).1.m_nextPlace := by
  have h := (spanChain_of_ctorBuffer bufferSize buffer memory cs hb hc).1
  have hf := runCalls_buffer cs (ctorBuffer bufferSize buffer memory) []
  have hrem := GetRemainingSize_eq _ h
  obtain ⟨h1, h2, _⟩ := h
  have hf1 : (runCalls (ctorBuffer bufferSize buffer memory) [] cs).1.m_buffer = buffer := hf.1
  have hf2 : (runCalls (ctorBuffer bufferSize buffer memory) [] cs).1.bufferSize = bufferSize :=
    hf.2
  rw [hf1] at h1
  rw [hf1, hf2] at h2 hrem
  exact ⟨h1, h2, hrem⟩

/-- The stored lengths of a span chain: each is at least `allocationInfoSize` and at most the
distance from the start of the buffer to the end of its span, and they sum to the distance from
the start of the buffer to the top of the chain. -/
theorem SpanChain.spanLengths_sum {mem : Memory} {base : Nat} :
    ∀ {top : Nat} {live : List Allocation}, SpanChain mem base top live →
      (spanLengths top live).sum = top - base ∧
        ∀ n ∈ spanLengths top live, allocationInfoSize ≤ n ∧ n ≤ top - base
  | _, [], h => by
    have e : _ = base := h
    simp [spanLengths, e]
  | top, a :: rest, h => by
    obtain ⟨h1, h2, _, h4⟩ := h
    have hb := SpanChain.base_le h4
    obtain ⟨ih1, ih2⟩ := SpanChain.spanLengths_sum h4
    refine ⟨?_, ?_⟩
    · simp only [spanLengths, List.sum_cons, ih1]
      omega
    · intro n hn
      simp only [spanLengths, List.mem_cons] at hn
      rcases hn with rfl | hn
      · omega
      · have := ih2 n hn
        omega

/-- Record reads away from the wrap: when the invariant holds and an allocation is live, `Free`
returns `true` and the `AllocationInfo` it reads lies inside the used part of the buffer. -/
theorem Free_reads_in_buffer (s : StackMemoryAllocator) (a : Allocation)
    (rest : List Allocation) (hwf : s.WellFormed)
    (hch : SpanChain s.memory s.m_buffer s.m_nextPlace (a :: rest)) :
    s.Free.1 = true ∧ s.m_buffer ≤ wsub s.m_nextPlace allocationInfoSize ∧
      wsub s.m_nextPlace allocationInfoSize + allocationInfoSize = s.m_nextPlace ∧
      s.Free.2.GetRemainingSize = s.GetRemainingSize + (s.m_nextPlace - a.cursor) ∧
      allocationInfoSize ≤ s.m_nextPlace - a.cursor := by
  obtain ⟨g1, g2, g3, g4⟩ := hch
  have gb := SpanChain.base_le g4
  have hrem := GetRemainingSize_eq s hwf
  obtain ⟨h1, h2, h3⟩ := hwf
  simp only [allocationInfoSize] at *
  have hne : s.m_nextPlace ≠ s.m_buffer := by omega
  have hi : wsub s.m_nextPlace 8 = s.m_nextPlace - 8 := by unfold wsub; omega
  have hb : wsub s.m_nextPlace (s.m_nextPlace - a.cursor) = a.cursor := by unfold wsub; omega
  refine ⟨by simp only [Free, if_neg hne], by omega, by omega, ?_, by omega⟩
  rw [hrem]
  simp only [Free, if_neg hne, allocationInfoSize, hi, g3, hb, GetRemainingSize]
  unfold wadd wsub
  omega

/-- Progress of `Allocate`: on a well-formed allocator a successful call with a power-of-two
alignment moves the cursor forward by at least `size + allocationInfoSize`. -/
theorem Allocate_advances (s : StackMemoryAllocator) (k size p : Nat) (hwf : s.WellFormed)
    (hk : k < 64) (h : (s.Allocate (2 ^ k) size).1 = some p) :
    s.m_nextPlace + size + allocationInfoSize ≤ (s.Allocate (2 ^ k) size).2.m_nextPlace := by
  rw [Allocate_eq s k size hwf hk] at h ⊢
  have hp1 := alignUp_ge s.m_nextPlace (2 ^ k)
  have hq1 := alignUp_ge (alignUp s.m_nextPlace (2 ^ k) + size) 8
  split_ifs at h ⊢ with hfit
  show _ ≤ alignUp (alignUp s.m_nextPlace (2 ^ k) + size) 8 + 8
  unfold allocationInfoSize
  omega

/-- Progress of `AllocateTight` away from the wrap: on a well-formed allocator a successful call
moves the cursor forward by `size + allocationInfoSize`. -/
theorem AllocateTight_advances (s : StackMemoryAllocator) (size p : Nat) (hwf : s.WellFormed)
    (hsize : size + allocationInfoSize < 2 ^ 64) (h : (s.AllocateTight size).1 = some p) :
    (s.AllocateTight size).2.m_nextPlace = s.m_nextPlace + size + allocationInfoSize := by
  rw [AllocateTight_eq s size hwf hsize] at h ⊢
  split_ifs at h ⊢ with hfit
  rfl

/-- Termination of unwinding away from the wrap: when the invariant holds, after as many calls
of `Free` as there are live allocations the next `Free` returns `false`. -/
theorem Free_false_after_unwinding (live : List Allocation) (s : StackMemoryAllocator)
    (hwf : s.WellFormed) (hch : SpanChain s.memory s.m_buffer s.m_nextPlace live) :
    (freeTimes s live.length).Free.1 = false := by
  have h := (freeTimes_of_spanChain live s hwf hch).2.1
  have hbuf : ∀ (n : Nat) (t : StackMemoryAllocator), (freeTimes t n).m_buffer = t.m_buffer := by
    intro n
    induction n with
    | zero => intro t; rfl
    | succ n ih => intro t; exact (ih t.Free.2).trans (Free_buffer t).1
  have e : (freeTimes s live.length).m_nextPlace = (freeTimes s live.length).m_buffer := by
    rw [h, hbuf]
  simp only [Free, if_pos e]

/-! ## The claims on invariants, record access and progress -/

/-- Claim C13 (cursor bound invariant), at a sequence with a wrapping tight size: on the fresh
allocator of capacity 64 with its buffer at 4096, `AllocateTight 8` and
`AllocateTight (2 ^ 64 - 7)` both return a pointer; the second writes its `AllocationInfo` at
4105, over the upper seven bytes of the first one at 4104, which then reads 272. The two calls
of `Free` that follow return `true` and leave the cursor at 3840, before the start of the
buffer, and a remaining size of 320, more than the capacity. -/
theorem cursor_leaves_buffer_after_wrapping_tight_size :
    (fresh64.AllocateTight 8).1 = some 4096 ∧
      ((fresh64.AllocateTight 8).2.AllocateTight (2 ^ 64 - 7)).1 = some 4112 ∧
      ((fresh64.AllocateTight 8).2.AllocateTight (2 ^ 64 - 7)).2.Free.1 = true ∧
      ((fresh64.AllocateTight 8).2.AllocateTight (2 ^ 64 - 7)).2.Free.2.m_nextPlace = 4112 ∧
      readAllocationSize
        ((fresh64.AllocateTight 8).2.AllocateTight (2 ^ 64 - 7)).2.Free.2.memory 4104 = 272 ∧
      ((fresh64.AllocateTight 8).2.AllocateTight (2 ^ 64 - 7)).2.Free.2.Free.1 = true ∧
      ((fresh64.AllocateTight 8).2.AllocateTight (2 ^ 64 - 7)).2.Free.2.Free.2.m_nextPlace
        = 3840 ∧
      3840 < fresh64.m_buffer ∧
      ((fresh64.AllocateTight 8).2.AllocateTight (2 ^ 64 - 7)).2.Free.2.Free.2.GetRemainingSize
        = 320 ∧
      fresh64.bufferSize < 320 ∧
      ¬ ((fresh64.AllocateTight 8).2.AllocateTight (2 ^ 64 - 7)).2.Free.2.Free.2.WellFormed := by
  decide

/-- Claim C14 (span-chain invariant), at a wrapping tight size: on the fresh allocator of
capacity 64, after `AllocateTight (2 ^ 64 - 8)` one allocation is live while the cursor is
still at the start of the buffer; the `AllocationInfo` the call wrote, at 4088, holds 0, less
than `allocationInfoSize`, and the bytes before the cursor are not the span chain of the live
allocations. -/
theorem spanChain_fails_for_wrapping_tight_size :
    (runCalls fresh64 [] [Call.AllocateTight (2 ^ 64 - 8)]).2.length = 1 ∧
      (runCalls fresh64 [] [Call.AllocateTight (2 ^ 64 - 8)]).1.m_nextPlace = fresh64.m_buffer ∧
      (runCalls fresh64 [] [Call.AllocateTight (2 ^ 64 - 8)]).1.memory
        = writeAllocationSize fresh64.memory 4088 0 ∧
      readAllocationSize (runCalls fresh64 [] [Call.AllocateTight (2 ^ 64 - 8)]).1.memory 4088
        < allocationInfoSize ∧
      ¬ SpanChain (runCalls fresh64 [] [Call.AllocateTight (2 ^ 64 - 8)]).1.memory
        (runCalls fresh64 [] [Call.AllocateTight (2 ^ 64 - 8)]).1.m_buffer
        (runCalls fresh64 [] [Call.AllocateTight (2 ^ 64 - 8)]).1.m_nextPlace
        (runCalls fresh64 [] [Call.AllocateTight (2 ^ 64 - 8)]).2 := by
  refine ⟨by decide, by decide, rfl, by decide, fun h => ?_⟩
  obtain ⟨_, h2, _⟩ := h
  revert h2
  decide

/-- Claim C17 (in-bounds record access), at a wrapping tight size: on the fresh allocator of
capacity 64 with its buffer at 4096, `AllocateTight (2 ^ 64 - 7)` returns a pointer and writes
its `AllocationInfo` at 4089, seven bytes before the buffer; the `Free` that follows returns
`true` after reading the `AllocationInfo` at `m_nextPlace - allocationInfoSize`, the same
address 4089. -/
theorem record_access_outside_buffer_for_wrapping_tight_size :
    (fresh64.AllocateTight (2 ^ 64 - 7)).1 = some 4096 ∧
      (fresh64.AllocateTight (2 ^ 64 - 7)).2.memory
        = writeAllocationSize fresh64.memory 4089 1 ∧
      fresh64.memory 4089 = 0 ∧
      (fresh64.AllocateTight (2 ^ 64 - 7)).2.memory 4089 = 1 ∧
      4089 < fresh64.m_buffer ∧
      (fresh64.AllocateTight (2 ^ 64 - 7)).2.m_nextPlace = 4097 ∧
      (fresh64.AllocateTight (2 ^ 64 - 7)).2.Free.1 = true ∧
      wsub (fresh64.AllocateTight (2 ^ 64 - 7)).2.m_nextPlace allocationInfoSize = 4089 := by
  refine ⟨by decide, rfl, by decide, by decide, by decide, by decide, by decide, by decide⟩

/-- Claim C20 (progress), at a sequence with a wrapping tight size: on the fresh allocator of
capacity 64, after `AllocateTight 8` the call `AllocateTight (2 ^ 64 - 8)` returns a pointer and
moves the cursor by 0; it leaves an `AllocationInfo` that holds 0 before the cursor, so every
later `Free` returns `true` and leaves 48 bytes remaining: no number of calls of `Free` makes
`Free` return `false`. -/
theorem free_never_returns_false_after_wrapping_tight_size :
    ((fresh64.AllocateTight 8).2.AllocateTight (2 ^ 64 - 8)).1 = some 4112 ∧
      ((fresh64.AllocateTight 8).2.AllocateTight (2 ^ 64 - 8)).2.m_nextPlace
        = (fresh64.AllocateTight 8).2.m_nextPlace ∧
      ∀ n,
        (freeTimes ((fresh64.AllocateTight 8).2.AllocateTight (2 ^ 64 - 8)).2 n).Free.1 = true ∧
        (freeTimes ((fresh64.AllocateTight 8).2.AllocateTight (2 ^ 64 - 8)).2 n).Free.2.GetRemainingSize
          = 48 := by
  have hfix : ((fresh64.AllocateTight 8).2.AllocateTight (2 ^ 64 - 8)).2.Free.2
      = ((fresh64.AllocateTight 8).2.AllocateTight (2 ^ 64 - 8)).2 := rfl
  have hall : ∀ n, freeTimes ((fresh64.AllocateTight 8).2.AllocateTight (2 ^ 64 - 8)).2 n
      = ((fresh64.AllocateTight 8).2.AllocateTight (2 ^ 64 - 8)).2 := by
    intro n
    induction n with
    | zero => rfl
    | succ n ih =>
      show freeTimes ((fresh64.AllocateTight 8).2.AllocateTight (2 ^ 64 - 8)).2.Free.2 n = _
      rw [hfix]
      exact ih
  refine ⟨by decide, by decide, fun n => ?_⟩
  rw [hall n]
  decide

end Zor.MemoryAllocators
